import Mathlib

/-!
Verification of the slide-deck orchestration script `ai_presentation.py`.

Strings are modelled as `List Char` (`Str`).  Python string operations used by
the script (`str.strip`, `str.split("\n")`, `str.split("\n\n")`,
`"\n".join`, `str.split(": ", 1)[-1]`, `str.startswith("http")`) are embedded
as executable functions on `Str` mirroring Python semantics.
-/

set_option autoImplicit false

namespace AIP

/-- Strings as lists of characters. -/
abbrev Str : Type := List Char

/-- The characters Python's `str.strip()` removes: exactly those for which
`str.isspace()` holds — the ASCII whitespace and separator controls
(U+0009-U+000D, U+001C-U+001F, U+0020), NEL (U+0085), NBSP (U+00A0), and
the Unicode space and line/paragraph separators (U+1680, U+2000-U+200A,
U+2028, U+2029, U+202F, U+205F, U+3000). -/
def isPySpace (c : Char) : Bool :=
  c = '\t' || c = '\n' || c = '\x0b' || c = '\x0c' || c = '\r' ||
  c = '\x1c' || c = '\x1d' || c = '\x1e' || c = '\x1f' || c = ' ' ||
  c = '\x85' || c = '\xa0' || c = '\u1680' ||
  c = '\u2000' || c = '\u2001' || c = '\u2002' || c = '\u2003' ||
  c = '\u2004' || c = '\u2005' || c = '\u2006' || c = '\u2007' ||
  c = '\u2008' || c = '\u2009' || c = '\u200a' ||
  c = '\u2028' || c = '\u2029' || c = '\u202f' || c = '\u205f' ||
  c = '\u3000'

/-- Python `str.strip()`: drop leading and trailing whitespace. -/
def pyStrip (s : Str) : Str :=
  ((s.dropWhile isPySpace).reverse.dropWhile isPySpace).reverse

/-- Prepend a character to the first piece of a split result
(the split result is always nonempty). -/
def consHead (c : Char) : List Str → List Str
  | [] => [[c]]
  | l :: ls => (c :: l) :: ls

/-- Python `s.split("\n")`: slide blocks are split into lines
(`lines = slide.split("\n")` in `add_slides`). -/
def splitLines : Str → List Str
  | [] => [[]]
  | c :: rest => if c = '\n' then [] :: splitLines rest else consHead c (splitLines rest)

/-- Python `s.split("\n\n")`: the raw generation text is split into slide
blocks (`slides = slides_content.strip().split("\n\n")` in `add_slides`).
Occurrences of the two-character separator are consumed left to right,
non-overlapping, exactly as in Python. -/
def splitBlocks : Str → List Str
  | [] => [[]]
  | [c] => [[c]]
  | c :: d :: rest =>
    if c = '\n' ∧ d = '\n' then [] :: splitBlocks rest
    else consHead c (splitBlocks (d :: rest))

/-- Whether a string contains two consecutive line breaks. -/
def hasNlNl : Str → Bool
  | [] => false
  | [_] => false
  | c :: d :: rest => (decide (c = '\n') && decide (d = '\n')) || hasNlNl (d :: rest)

/-- Python `"\n".join(lines)`. -/
def joinNL : List Str → Str
  | [] => []
  | [l] => l
  | l :: l' :: ls => l ++ '\n' :: joinNL (l' :: ls)

/-- Join blocks with a blank line (the shape of a raw generation text that
consists of blank-line-separated blocks). -/
def joinBlocks : List Str → Str
  | [] => []
  | [b] => b
  | b :: b' :: bs => b ++ '\n' :: '\n' :: joinBlocks (b' :: bs)

/-- A parsed slide: title and bullet body. -/
structure Slide where
  title : Str
  body : Str
deriving DecidableEq, Repr

/-- Parsing of one blank-line-separated block, from `add_slides`
(lines 110-115): split on line breaks, skip the block if it has fewer than
2 lines, otherwise title is the first line stripped and the body is the
remaining lines joined with line breaks. -/
def parseBlock (block : Str) : Option Slide :=
  match splitLines block with
  | l0 :: l1 :: rest => some ⟨pyStrip l0, joinNL (l1 :: rest)⟩
  | _ => none

/-- The slide sequence `add_slides` extracts from the raw generation text
(lines 106-115): strip, split into blocks on blank lines, drop malformed
blocks. -/
def parseSlides (content : Str) : List Slide :=
  (splitBlocks (pyStrip content)).filterMap parseBlock

/-- Python `s.startswith("http")`. -/
def startsWithHttp (s : Str) : Bool := "http".toList.isPrefixOf s

/-- One result item of the image-search response (`data["items"][i]`),
carrying its `"link"` field. -/
structure SearchItem where
  link : Str
deriving DecidableEq, Repr

/-- An image-search HTTP response: the status code and the optional
`"items"` list (`none` models a JSON body with no `"items"` key). -/
structure SearchResponse where
  statusCode : Nat
  items : Option (List SearchItem)
deriving DecidableEq, Repr

/-- `fetch_image_url` (lines 64-93): the search service is an oracle from
query strings to responses; on status 200 with a nonempty item list the
first link is taken and validated to start with `"http"`, every other case
yields `none`. -/
def fetch_image_url (search : Str → SearchResponse) (query : Str) : Option Str :=
  if (search query).statusCode = 200 then
    match (search query).items with
    | some (item :: _) =>
      if startsWithHttp item.link then some item.link else none
    | _ => none
  else none

/-- A page element of a created slide: its object identifier and the
placeholder type found at `element["shape"]["placeholder"]["type"]`
(`none` models a missing shape/placeholder/type). -/
structure PageElement where
  objectId : Str
  placeholderType : Option Str
deriving DecidableEq, Repr

/-- The placeholder scan of `add_slides` (lines 131-142): walk the page
elements, remembering the object id of the last element whose placeholder
type is `"TITLE"` (first component) and of the last one whose type is
`"BODY"` (second component). -/
def scanPlaceholders (elems : List PageElement) : Option Str × Option Str :=
  elems.foldl
    (fun acc e =>
      match e.placeholderType with
      | some t =>
        if t = "TITLE".toList then (some e.objectId, acc.2)
        else if t = "BODY".toList then (acc.1, some e.objectId)
        else acc
      | none => acc)
    (none, none)

/-- `slide_title.split(": ", 1)[-1]` (line 164): everything after the first
occurrence of `": "`, or the whole string if there is none.  This helper
returns the part after the first occurrence when it exists. -/
def afterColonSpace : Str → Option Str
  | [] => none
  | c :: rest =>
    if c = ':' ∧ rest.head? = some ' ' then some rest.tail else afterColonSpace rest

/-- The query `add_slides` passes to the image search (line 164):
`slide_title.split(": ", 1)[-1]`. -/
def queryOfTitle (title : Str) : Str :=
  match afterColonSpace title with
  | some rest => rest
  | none => title

/-- An operation accumulated into the `requests` list of `add_slides`:
a text insertion into an object, or an image creation on a page. -/
inductive Operation where
  | insertText (objectId : Str) (text : Str)
  | createImage (url : Str) (pageObjectId : Str)
deriving DecidableEq, Repr

/-- The title text-insertion operations for one slide (lines 147-153):
one insertion if a title placeholder was located, none otherwise. -/
def titleOps (titleId : Option Str) (title : Str) : List Operation :=
  match titleId with
  | some oid => [.insertText oid title]
  | none => []

/-- The body text-insertion operations for one slide (lines 155-161). -/
def bodyOps (bodyId : Option Str) (body : Str) : List Operation :=
  match bodyId with
  | some oid => [.insertText oid body]
  | none => []

/-- The image operations for one slide (lines 165-187): a `createImage`
when a URL was found and it starts with `"http"` (the code re-checks the
prefix), nothing otherwise. -/
def imageOps (imageUrl : Option Str) (slideId : Str) : List Operation :=
  match imageUrl with
  | some url => if startsWithHttp url then [.createImage url slideId] else []
  | none => []

/-- A remote call issued while `add_slides` runs: the per-slide
slide-creation batch update (lines 118-121), the page-elements read
(lines 127-129), the image-search HTTP request (line 79, reached via
`fetch_image_url`), and the final commit batch update (line 194) carrying
the accumulated operations. -/
inductive ServiceCall where
  | createSlideCall
  | getPageCall (slideId : Str)
  | imageSearchCall (query : Str)
  | commitBatchUpdate (ops : List Operation)
deriving DecidableEq, Repr

/-- Whether a call is the commit batch update. -/
def isCommitCall : ServiceCall → Bool
  | .commitBatchUpdate _ => true
  | _ => false

/-- Whether a call is a slide creation. -/
def isCreateSlideCall : ServiceCall → Bool
  | .createSlideCall => true
  | _ => false

/-- Whether a call is a page-elements read. -/
def isGetPageCall : ServiceCall → Bool
  | .getPageCall _ => true
  | _ => false

/-- The query of an image-search call, if the call is one. -/
def queryOfCall : ServiceCall → Option Str
  | .imageSearchCall q => some q
  | _ => none

/-- The environment one slide iteration observes: the slide id Google
assigned in the `createSlide` reply (line 124) and the page elements
returned for that slide (lines 127-134). -/
structure SlideEnv where
  slideId : Str
  pageElements : List PageElement
deriving Repr

/-- The body of the per-slide loop of `add_slides` (lines 117-187) for one
parsed slide: create the slide, read its page elements, scan for
placeholders, fetch an image for the prefix-stripped title, and produce the
operations appended to `requests`.  Returns the calls issued and the
operations accumulated. -/
def slideStep (search : Str → SearchResponse) (e : SlideEnv) (s : Slide) :
    List ServiceCall × List Operation :=
  let p := scanPlaceholders e.pageElements
  let q := queryOfTitle s.title
  let imageUrl := fetch_image_url search q
  ([.createSlideCall, .getPageCall e.slideId, .imageSearchCall q],
   titleOps p.1 s.title ++ bodyOps p.2 s.body ++ imageOps imageUrl e.slideId)

/-- The loop of `add_slides` over the parsed slides, `i` counting the
slides created so far (the environment is indexed by creation order). -/
def processSlides (search : Str → SearchResponse) (env : Nat → SlideEnv) :
    Nat → List Slide → List ServiceCall × List Operation
  | _, [] => ([], [])
  | i, s :: rest =>
    let r := slideStep search (env i) s
    let rr := processSlides search env (i + 1) rest
    (r.1 ++ rr.1, r.2 ++ rr.2)

/-- The loop of `add_slides` over the raw blocks (lines 109-187): a block
with fewer than 2 lines is skipped with `continue`, any other block goes
through `slideStep`. -/
def processBlocks (search : Str → SearchResponse) (env : Nat → SlideEnv) :
    Nat → List Str → List ServiceCall × List Operation
  | _, [] => ([], [])
  | i, b :: bs =>
    match parseBlock b with
    | none => processBlocks search env i bs
    | some s =>
      let r := slideStep search (env i) s
      let rr := processBlocks search env (i + 1) bs
      (r.1 ++ rr.1, r.2 ++ rr.2)

/-- The outcome of one `add_slides` run: the ordered remote calls, the
accumulated operation list, and whether the run reported that there was no
valid slide content to add. -/
structure RunResult where
  calls : List ServiceCall
  ops : List Operation
  reportedNoContent : Bool
deriving Repr

/-- `add_slides` (lines 102-197): split the stripped content into blocks,
run the per-slide loop, then commit all accumulated operations in one
batch update — unless the list is empty, in which case no commit call is
made and the run reports that no content was added. -/
def add_slides (search : Str → SearchResponse) (env : Nat → SlideEnv)
    (content : Str) : RunResult :=
  if (processBlocks search env 0 (splitBlocks (pyStrip content))).2.isEmpty then
    ⟨(processBlocks search env 0 (splitBlocks (pyStrip content))).1,
     (processBlocks search env 0 (splitBlocks (pyStrip content))).2, true⟩
  else
    ⟨(processBlocks search env 0 (splitBlocks (pyStrip content))).1 ++
       [.commitBatchUpdate
         (processBlocks search env 0 (splitBlocks (pyStrip content))).2],
     (processBlocks search env 0 (splitBlocks (pyStrip content))).2, false⟩

/-- A permission body sent to the Drive sharing service. -/
structure Permission where
  type : Str
  role : Str
deriving DecidableEq, Repr

/-- The permission body of `share_presentation` (line 201):
`{"type": "anyone", "role": "writer"}`. -/
def sharePermission : Permission := ⟨"anyone".toList, "writer".toList⟩

/-- A call to the Drive service. -/
inductive DriveCall where
  | createPermission (fileId : Str) (body : Permission)
deriving DecidableEq, Repr

/-- `share_presentation` (lines 199-204): a single permission-creation
call on the presentation identifier with the fixed permission body. -/
def share_presentation (presentationId : Str) : List DriveCall :=
  [.createPermission presentationId sharePermission]

/-- A URL returned by `fetch_image_url` always starts with `"http"`:
the function validates the prefix before returning the link. -/
theorem fetch_image_url_starts_http (search : Str → SearchResponse) (q : Str)
    (url : Str) (h : fetch_image_url search q = some url) :
    startsWithHttp url = true := by
  unfold fetch_image_url at h
  by_cases hs : (search q).statusCode = 200
  · simp only [hs, if_true] at h
    rcases hi : (search q).items with _ | ⟨_ | ⟨item, rest⟩⟩ <;> rw [hi] at h
    · exact absurd h (by simp)
    · exact absurd h (by simp)
    · by_cases hp : startsWithHttp item.link = true
      · simp only [hp, if_true] at h
        cases h
        exact hp
      · simp only [eq_false_of_ne_true hp, if_false] at h
        exact absurd h (by simp)
  · simp only [hs, if_false] at h
    exact absurd h (by simp)

/-- C4 counterexample: the claim states the permission body carries the
role string `"editor"`; the code sends `{"type": "anyone", "role":
"writer"}`, so the role field is `"writer"`, not `"editor"`. -/
theorem c4_counterexample :
    ¬ (sharePermission.type = "anyone".toList ∧
       sharePermission.role = "editor".toList) := by
  decide

/-- C4 (amended): the Access Publisher issues exactly one
permission-creation call on the presentation identifier, whose body has
access-type `"anyone"` and role `"writer"` (the Drive API name for the
edit-capable role). -/
theorem c4_amended_share (presentationId : Str) :
    share_presentation presentationId =
      [DriveCall.createPermission presentationId
        ⟨"anyone".toList, "writer".toList⟩] ∧
    (share_presentation presentationId).length = 1 :=
  ⟨rfl, rfl⟩

/-- C6: whenever the image-search response has an empty or absent result
list the resolver returns `none`, and whenever the status code is not 200
the resolver returns `none`. -/
theorem c6_empty_results_no_image (search : Str → SearchResponse) (q : Str) :
    (((search q).items = none ∨ (search q).items = some []) →
      fetch_image_url search q = none) ∧
    ((search q).statusCode ≠ 200 → fetch_image_url search q = none) := by
  constructor
  · intro h
    unfold fetch_image_url
    rcases h with h | h <;> rw [h] <;> split <;> rfl
  · intro h
    unfold fetch_image_url
    simp only [if_neg h]

/-- C6 witness: a 200 response with an empty item list resolves to no
image, and a 500 response resolves to no image. -/
theorem c6_witness :
    fetch_image_url (fun _ => ⟨200, some []⟩) [] = none ∧
    fetch_image_url (fun _ => ⟨500, some [⟨"http://a".toList⟩]⟩) [] = none :=
  ⟨(c6_empty_results_no_image (fun _ => ⟨200, some []⟩) []).1 (Or.inr rfl),
   (c6_empty_results_no_image (fun _ => ⟨500, some [⟨"http://a".toList⟩]⟩) []).2
     (by decide)⟩

/-- C7 counterexample: the claim states that whenever the first result's
link starts with `"http"` that link is returned, but on a response with
status 500 whose first link is `"http://a"` the resolver still returns
`none`. -/
theorem c7_counterexample :
    (fun _ : Str => SearchResponse.mk 500 (some [⟨"http://a".toList⟩])) [] =
      SearchResponse.mk 500 (some [⟨"http://a".toList⟩]) ∧
    startsWithHttp ("http://a".toList) = true ∧
    fetch_image_url
      (fun _ : Str => SearchResponse.mk 500 (some [⟨"http://a".toList⟩])) [] ≠
      some ("http://a".toList) := by
  refine ⟨rfl, by decide, by decide⟩

/-- C7 (amended): a first link without the `"http"` prefix always resolves
to no image; and when the response status is 200 and the first link starts
with `"http"`, that link is returned. -/
theorem c7_first_link_validation (search : Str → SearchResponse) (q : Str)
    (item : SearchItem) (rest : List SearchItem)
    (hitems : (search q).items = some (item :: rest)) :
    (startsWithHttp item.link = false → fetch_image_url search q = none) ∧
    ((search q).statusCode = 200 → startsWithHttp item.link = true →
      fetch_image_url search q = some item.link) := by
  constructor
  · intro hbad
    unfold fetch_image_url
    rw [hitems]
    split
    · simp only [hbad, Bool.false_eq_true, if_false]
    · rfl
  · intro hs hgood
    unfold fetch_image_url
    rw [hitems]
    simp only [hs, if_true, hgood]

/-- C7 witness: on a 200 response whose first link is `"ftp://x"` the
resolver returns no image; on a 200 response whose first link is
`"http://a"` the resolver returns that link. -/
theorem c7_witness :
    fetch_image_url (fun _ => ⟨200, some [⟨"ftp://x".toList⟩]⟩) [] = none ∧
    fetch_image_url (fun _ => ⟨200, some [⟨"http://a".toList⟩]⟩) [] =
      some ("http://a".toList) :=
  ⟨(c7_first_link_validation (fun _ => ⟨200, some [⟨"ftp://x".toList⟩]⟩) []
      ⟨"ftp://x".toList⟩ [] rfl).1 (by decide),
   (c7_first_link_validation (fun _ => ⟨200, some [⟨"http://a".toList⟩]⟩) []
      ⟨"http://a".toList⟩ [] rfl).2 rfl (by decide)⟩

/-- C2: a title (resp. body) text-insertion operation for a slide is
accumulated exactly when a title (resp. body) placeholder was located among
its page elements; in particular, when a title placeholder is located but
no body placeholder is, the only text-insertion operation produced for the
slide is the title insertion. -/
theorem c2_placeholder_ops (search : Str → SearchResponse) (e : SlideEnv)
    (s : Slide) :
    ((∃ oid, (scanPlaceholders e.pageElements).1 = some oid ∧
        Operation.insertText oid s.title ∈ (slideStep search e s).2) ↔
      (scanPlaceholders e.pageElements).1 ≠ none) ∧
    ((∃ oid, (scanPlaceholders e.pageElements).2 = some oid ∧
        Operation.insertText oid s.body ∈ (slideStep search e s).2) ↔
      (scanPlaceholders e.pageElements).2 ≠ none) ∧
    (∀ t, scanPlaceholders e.pageElements = (some t, none) →
      Operation.insertText t s.title ∈ (slideStep search e s).2 ∧
      ∀ oid txt, Operation.insertText oid txt ∈ (slideStep search e s).2 →
        oid = t ∧ txt = s.title) := by
  refine ⟨⟨?_, ?_⟩, ⟨?_, ?_⟩, ?_⟩
  · rintro ⟨oid, hoid, -⟩ hnone
    rw [hnone] at hoid
    exact Option.noConfusion hoid
  · intro hne
    rcases ho : (scanPlaceholders e.pageElements).1 with _ | t
    · exact absurd ho hne
    · exact ⟨t, rfl, by simp [slideStep, titleOps, ho]⟩
  · rintro ⟨oid, hoid, -⟩ hnone
    rw [hnone] at hoid
    exact Option.noConfusion hoid
  · intro hne
    rcases ho : (scanPlaceholders e.pageElements).2 with _ | b
    · exact absurd ho hne
    · exact ⟨b, rfl, by simp [slideStep, bodyOps, ho]⟩
  · intro t hpt
    have h1 : (scanPlaceholders e.pageElements).1 = some t := by rw [hpt]
    have h2 : (scanPlaceholders e.pageElements).2 = none := by rw [hpt]
    constructor
    · simp [slideStep, titleOps, h1]
    · intro oid txt hmem
      rcases himg : fetch_image_url search (queryOfTitle s.title) with _ | url
      · simp [slideStep, titleOps, bodyOps, imageOps, h1, h2, himg] at hmem
        exact ⟨hmem.1, hmem.2⟩
      · by_cases hw : startsWithHttp url = true
        · simp [slideStep, titleOps, bodyOps, imageOps, h1, h2, himg, hw] at hmem
          exact ⟨hmem.1, hmem.2⟩
        · simp [slideStep, titleOps, bodyOps, imageOps, h1, h2, himg,
            eq_false_of_ne_true hw] at hmem
          exact ⟨hmem.1, hmem.2⟩

/-- C2 witness: with one TITLE placeholder element and no BODY element,
the slide's operations are exactly the title insertion (the image search
finds nothing). -/
theorem c2_witness :
    Operation.insertText ("t1".toList) ("Ttl".toList) ∈
      (slideStep (fun _ => ⟨500, none⟩)
        ⟨"s1".toList, [⟨"t1".toList, some ("TITLE".toList)⟩]⟩
        ⟨"Ttl".toList, "Bdy".toList⟩).2 :=
  ((c2_placeholder_ops (fun _ => ⟨500, none⟩)
      ⟨"s1".toList, [⟨"t1".toList, some ("TITLE".toList)⟩]⟩
      ⟨"Ttl".toList, "Bdy".toList⟩).2.2 ("t1".toList) (by decide)).1

/-- C9: whenever the image search resolves to a URL for a slide's
prefix-stripped title, a create-image operation targeting the slide is
accumulated, and this holds independently of placeholder resolution: with
neither a title nor a body placeholder located, the slide's operations are
exactly that one create-image operation. -/
theorem c9_image_independent (search : Str → SearchResponse) (e : SlideEnv)
    (s : Slide) (url : Str)
    (h : fetch_image_url search (queryOfTitle s.title) = some url) :
    Operation.createImage url e.slideId ∈ (slideStep search e s).2 ∧
    (scanPlaceholders e.pageElements = (none, none) →
      (slideStep search e s).2 = [Operation.createImage url e.slideId]) := by
  have hw : startsWithHttp url = true :=
    fetch_image_url_starts_http search (queryOfTitle s.title) url h
  constructor
  · simp [slideStep, imageOps, h, hw]
  · intro hp
    have h1 : (scanPlaceholders e.pageElements).1 = none := by rw [hp]
    have h2 : (scanPlaceholders e.pageElements).2 = none := by rw [hp]
    simp [slideStep, titleOps, bodyOps, imageOps, h1, h2, h, hw]

/-- C9 witness: with a successful image search and an element list with no
placeholders at all, the slide still receives exactly its image
operation. -/
theorem c9_witness :
    (slideStep (fun _ => ⟨200, some [⟨"http://img".toList⟩]⟩)
        ⟨"s1".toList, []⟩ ⟨"T".toList, "B".toList⟩).2 =
      [Operation.createImage ("http://img".toList) ("s1".toList)] :=
  (c9_image_independent (fun _ => ⟨200, some [⟨"http://img".toList⟩]⟩)
      ⟨"s1".toList, []⟩ ⟨"T".toList, "B".toList⟩ ("http://img".toList)
      (by decide)).2 (by decide)

/-- The block loop equals the slide loop run on the blocks surviving the
2-line filter: skipped blocks contribute no calls and no operations. -/
theorem processBlocks_eq (search : Str → SearchResponse) (env : Nat → SlideEnv)
    (bs : List Str) : ∀ i,
    processBlocks search env i bs =
      processSlides search env i (bs.filterMap parseBlock) := by
  induction bs with
  | nil => intro i; rfl
  | cons b bs ih =>
    intro i
    cases hpb : parseBlock b with
    | none => simpa [processBlocks, List.filterMap_cons, hpb] using ih i
    | some s =>
      simp [processBlocks, processSlides, List.filterMap_cons, hpb, ih (i + 1)]

/-- The per-slide loop never issues a commit batch update. -/
theorem processSlides_no_commit (search : Str → SearchResponse)
    (env : Nat → SlideEnv) (slides : List Slide) : ∀ i,
    ∀ call ∈ (processSlides search env i slides).1, isCommitCall call = false := by
  induction slides with
  | nil => intro i call h; exact absurd h (by simp [processSlides])
  | cons s rest ih =>
    intro i call h
    simp only [processSlides, List.mem_append] at h
    rcases h with h | h
    · simp only [slideStep, List.mem_cons] at h
      rcases h with h | h | h | h
      · rw [h]; rfl
      · rw [h]; rfl
      · rw [h]; rfl
      · exact absurd h (List.not_mem_nil call)
    · exact ih (i + 1) call h

/-- The per-slide loop issues exactly one slide creation and one
page-elements read per slide, and exactly the image-search queries of the
slides' prefix-stripped titles, in order. -/
theorem processSlides_calls (search : Str → SearchResponse)
    (env : Nat → SlideEnv) (slides : List Slide) : ∀ i,
    ((processSlides search env i slides).1.filter isCreateSlideCall).length =
        slides.length ∧
    ((processSlides search env i slides).1.filter isGetPageCall).length =
        slides.length ∧
    (processSlides search env i slides).1.filterMap queryOfCall =
        slides.map (fun s => queryOfTitle s.title) := by
  induction slides with
  | nil => intro i; refine ⟨rfl, rfl, rfl⟩
  | cons s rest ih =>
    intro i
    have h := ih (i + 1)
    refine ⟨?_, ?_, ?_⟩
    · simp only [processSlides, List.filter_append, List.length_append,
        h.1, List.length_cons]
      simp [slideStep, isCreateSlideCall, isGetPageCall]
      omega
    · simp only [processSlides, List.filter_append, List.length_append,
        h.2.1, List.length_cons]
      simp [slideStep, isCreateSlideCall, isGetPageCall]
      omega
    · simp only [processSlides, List.filterMap_append, h.2.2, List.map_cons]
      simp [slideStep, queryOfCall]

/-- C3: when the accumulated operation list is empty the run makes no
commit batch-update call and reports that no content was added; when it is
nonempty the run does not so report, the trace contains exactly one commit
batch update and it carries every accumulated operation, and that commit is
the last call of the run. -/
theorem c3_single_commit (search : Str → SearchResponse) (env : Nat → SlideEnv)
    (content : Str) :
    ((add_slides search env content).ops = [] →
      (add_slides search env content).reportedNoContent = true ∧
      ∀ call ∈ (add_slides search env content).calls,
        isCommitCall call = false) ∧
    ((add_slides search env content).ops ≠ [] →
      (add_slides search env content).reportedNoContent = false ∧
      (add_slides search env content).calls.filter isCommitCall =
        [ServiceCall.commitBatchUpdate (add_slides search env content).ops] ∧
      (add_slides search env content).calls.getLast? =
        some (ServiceCall.commitBatchUpdate
          (add_slides search env content).ops)) := by
  have hnc : ∀ call ∈ (processBlocks search env 0
      (splitBlocks (pyStrip content))).1, isCommitCall call = false := by
    rw [processBlocks_eq]
    exact processSlides_no_commit search env _ 0
  by_cases hemp :
      (processBlocks search env 0 (splitBlocks (pyStrip content))).2.isEmpty = true
  · have hops : (add_slides search env content).ops = [] := by
      simp only [add_slides, hemp, if_true]
      exact List.isEmpty_iff.mp hemp
    refine ⟨fun _ => ⟨?_, ?_⟩, fun hne => absurd hops hne⟩
    · simp only [add_slides, hemp, if_true]
    · intro call hcall
      apply hnc
      simpa only [add_slides, hemp, if_true] using hcall
  · have hfalse : (processBlocks search env 0
        (splitBlocks (pyStrip content))).2.isEmpty = false :=
      eq_false_of_ne_true hemp
    have hne : (processBlocks search env 0
        (splitBlocks (pyStrip content))).2 ≠ [] := by
      intro h
      exact hemp (by simp [h])
    have hcalls : (add_slides search env content).calls =
        (processBlocks search env 0 (splitBlocks (pyStrip content))).1 ++
          [ServiceCall.commitBatchUpdate
            (processBlocks search env 0 (splitBlocks (pyStrip content))).2] := by
      simp [add_slides, hfalse]
    have hops : (add_slides search env content).ops =
        (processBlocks search env 0 (splitBlocks (pyStrip content))).2 := by
      simp [add_slides, hfalse]
    refine ⟨fun h => absurd (hops ▸ h) hne, fun _ => ⟨?_, ?_, ?_⟩⟩
    · simp [add_slides, hfalse]
    · rw [hcalls, hops, List.filter_append]
      have h1 : (processBlocks search env 0
          (splitBlocks (pyStrip content))).1.filter isCommitCall = [] := by
        rw [List.filter_eq_nil_iff]
        intro call hcall
        simp [hnc call hcall]
      rw [h1]
      rfl
    · rw [hcalls, hops]
      exact List.getLast?_concat _

/-- C3 witness: on empty content no operations accumulate, the run reports
that no content was added, and no commit call is made. -/
theorem c3_witness :
    (add_slides (fun _ => ⟨500, none⟩) (fun _ => ⟨[], []⟩) []).reportedNoContent
        = true :=
  ((c3_single_commit (fun _ => ⟨500, none⟩) (fun _ => ⟨[], []⟩) []).1
    (by decide)).1

/-- C5: a block that splits into fewer than 2 lines yields no slide; the
parse of any content equals the parse of only its well-formed blocks; the
run creates exactly one slide and reads page elements exactly once per
parsed slide (so skipped blocks trigger no placeholder lookup); and every
accumulated operation comes from the parsed slides. -/
theorem c5_malformed_blocks :
    (∀ b, (splitLines b).length < 2 → parseBlock b = none) ∧
    (∀ (search : Str → SearchResponse) (env : Nat → SlideEnv) (content : Str),
      parseSlides content =
        ((splitBlocks (pyStrip content)).filter
          (fun b => decide (2 ≤ (splitLines b).length))).filterMap parseBlock ∧
      ((add_slides search env content).calls.filter isCreateSlideCall).length =
        (parseSlides content).length ∧
      ((add_slides search env content).calls.filter isGetPageCall).length =
        (parseSlides content).length ∧
      (add_slides search env content).ops =
        (processSlides search env 0 (parseSlides content)).2) := by
  have hbad : ∀ b, (splitLines b).length < 2 → parseBlock b = none := by
    intro b hlen
    rcases hsl : splitLines b with _ | ⟨l0, _ | ⟨l1, rest⟩⟩
    · unfold parseBlock; rw [hsl]
    · unfold parseBlock; rw [hsl]
    · rw [hsl] at hlen
      simp at hlen
      omega
  refine ⟨hbad, ?_⟩
  intro search env content
  have hfilter : ∀ bs : List Str, bs.filterMap parseBlock =
      (bs.filter (fun b => decide (2 ≤ (splitLines b).length))).filterMap
        parseBlock := by
    intro bs
    induction bs with
    | nil => rfl
    | cons b bs ih =>
      by_cases hg : 2 ≤ (splitLines b).length
      · cases hpb : parseBlock b with
        | none => simp [List.filterMap_cons, List.filter_cons, hg, hpb, ih]
        | some s => simp [List.filterMap_cons, List.filter_cons, hg, hpb, ih]
      · have hnone : parseBlock b = none := hbad b (by omega)
        simp [List.filterMap_cons, List.filter_cons, hg, hnone, ih]
  have hcalls : ∀ p : ServiceCall → Bool,
      p (ServiceCall.commitBatchUpdate
        (processBlocks search env 0 (splitBlocks (pyStrip content))).2) = false →
      (add_slides search env content).calls.filter p =
        (processBlocks search env 0 (splitBlocks (pyStrip content))).1.filter p := by
    intro p hp
    unfold add_slides
    split
    · rfl
    · simp only [List.filter_append, List.filter_cons, hp, Bool.false_eq_true,
        if_false, List.filter_nil, List.append_nil]
  have hkey := processBlocks_eq search env (splitBlocks (pyStrip content)) 0
  have hparse : parseSlides content =
      (splitBlocks (pyStrip content)).filterMap parseBlock := rfl
  refine ⟨by rw [hparse, hfilter], ?_, ?_, ?_⟩
  · rw [hcalls isCreateSlideCall rfl, hkey]
    exact (processSlides_calls search env _ 0).1
  · rw [hcalls isGetPageCall rfl, hkey]
    exact (processSlides_calls search env _ 0).2.1
  · have : (add_slides search env content).ops =
        (processBlocks search env 0 (splitBlocks (pyStrip content))).2 := by
      unfold add_slides
      split <;> rfl
    rw [this, hkey]
    rfl

/-- C5 witness: the one-line block `"x"` is dropped by the parser. -/
theorem c5_witness : parseBlock ("x".toList) = none :=
  c5_malformed_blocks.1 ("x".toList) (by decide)

/-- Whether a string contains the two-character sequence `": "`. -/
def containsColonSpace : Str → Bool
  | [] => false
  | c :: rest =>
    if c = ':' ∧ rest.head? = some ' ' then true else containsColonSpace rest

/-- A string with no `": "` occurrence has no part after a first
occurrence. -/
theorem afterColonSpace_eq_none (t : Str)
    (h : containsColonSpace t = false) : afterColonSpace t = none := by
  induction t with
  | nil => rfl
  | cons c rest ih =>
    unfold containsColonSpace at h
    unfold afterColonSpace
    split at h
    · exact absurd h (by simp)
    · rw [if_neg (by assumption)]
      exact ih h

/-- `containsColonSpace` agrees with the substring reading: the string
splits around an occurrence of `": "`. -/
theorem containsColonSpace_iff (t : Str) :
    containsColonSpace t = true ↔ ∃ a b, t = a ++ ':' :: ' ' :: b := by
  induction t with
  | nil =>
    constructor
    · intro h; exact absurd h (by decide)
    · rintro ⟨a, b, h⟩
      cases a <;> simp at h
  | cons c rest ih =>
    by_cases hc : c = ':' ∧ rest.head? = some ' '
    · have hunfold : containsColonSpace (c :: rest) =
          if c = ':' ∧ rest.head? = some ' ' then true
          else containsColonSpace rest := rfl
      constructor
      · intro _
        rcases hrest : rest with _ | ⟨d, rs⟩
        · rw [hrest] at hc
          exact absurd hc.2 (by simp)
        · rw [hrest] at hc
          have hd : d = ' ' := by
            have h2 := hc.2
            simp at h2
            exact h2
          exact ⟨[], rs, by simp [hc.1, hd]⟩
      · intro _
        rw [hunfold, if_pos hc]
    · have hstep : containsColonSpace (c :: rest) = containsColonSpace rest := by
        have hunfold : containsColonSpace (c :: rest) =
            if c = ':' ∧ rest.head? = some ' ' then true
            else containsColonSpace rest := rfl
        rw [hunfold, if_neg hc]
      rw [hstep, ih]
      constructor
      · rintro ⟨a, b, h⟩
        exact ⟨c :: a, b, by rw [h]; rfl⟩
      · rintro ⟨a, b, h⟩
        cases a with
        | nil =>
          simp at h
          exact absurd ⟨h.1, by rw [h.2]; rfl⟩ hc
        | cons a0 as =>
          simp at h
          exact ⟨as, b, h.2⟩

/-- C10: a title with no `": "` occurrence is passed to the image search
unchanged — `split(": ", 1)[-1]` degrades to the identity; and the
no-occurrence condition is exactly the absence of a `": "` substring. -/
theorem c10_no_prefix_identity :
    (∀ t, containsColonSpace t = false → queryOfTitle t = t) ∧
    (∀ t, containsColonSpace t = false ↔ ¬ ∃ a b, t = a ++ ':' :: ' ' :: b) := by
  constructor
  · intro t h
    unfold queryOfTitle
    rw [afterColonSpace_eq_none t h]
  · intro t
    rw [← containsColonSpace_iff]
    constructor
    · intro h hcontra
      rw [h] at hcontra
      exact Bool.false_ne_true hcontra
    · intro h
      exact eq_false_of_ne_true h

/-- C10 witness: the title `"Facts"` contains no `": "` and is passed
through unchanged. -/
theorem c10_witness : queryOfTitle ("Facts".toList) = "Facts".toList :=
  c10_no_prefix_identity.1 ("Facts".toList) (by decide)

/-- The indices at which the two-character sequence `": "` occurs in a
string, in increasing order. -/
def colonSpacePositions (t : Str) : List Nat :=
  (List.range t.length).filter (fun i => decide ((t.drop i).take 2 = [':', ' ']))

/-- Direct reading of the spec sentence: the query is the title with the
prefix up to and including the FIRST `": "` occurrence removed, the title
itself when there is no occurrence. -/
def specQuery (t : Str) : Str :=
  match (colonSpacePositions t).head? with
  | some i => t.drop (i + 2)
  | none => t

/-- The part after a first `": "` occurrence is at least two characters
shorter than the whole string. -/
theorem afterColonSpace_length (t : Str) :
    ∀ r, afterColonSpace t = some r → r.length + 2 ≤ t.length := by
  induction t with
  | nil => intro r h; exact absurd h (by simp [afterColonSpace])
  | cons c rest ih =>
    intro r h
    unfold afterColonSpace at h
    split at h
    · rename_i hc
      cases h
      rcases hrest : rest with _ | ⟨d, rs⟩
      · rw [hrest] at hc
        exact absurd hc.2 (by simp)
      · subst hrest
        simp
    · have hlen := ih r h
      simp
      omega

/-- `slide_title.split(": ", 1)[-1]` computes the suffix after the first
`": "` occurrence position: the code helper agrees with the first
occurrence index taken from `colonSpacePositions`. -/
theorem afterColonSpace_eq_positions (t : Str) :
    afterColonSpace t =
      ((colonSpacePositions t).head?).map (fun i => t.drop (i + 2)) := by
  induction t with
  | nil => rfl
  | cons c rest ih =>
    by_cases h0 : (c :: rest).take 2 = [':', ' ']
    · rcases hr : rest with _ | ⟨d, rs⟩
      · rw [hr] at h0
        simp at h0
      · subst hr
        simp only [List.take, List.cons.injEq] at h0
        obtain ⟨hc, hd, -⟩ := h0
        subst hc
        subst hd
        have hP0 : decide (((':' :: ' ' :: rs).drop 0).take 2 = [':', ' ']) =
            true := by simp
        have hpos : colonSpacePositions (':' :: ' ' :: rs) =
            0 :: ((List.range (rs.length + 1)).map Nat.succ).filter
              (fun i => decide (((':' :: ' ' :: rs).drop i).take 2 =
                [':', ' '])) := by
          unfold colonSpacePositions
          rw [show (':' :: ' ' :: rs).length = (rs.length + 1) + 1 from rfl,
            List.range_succ_eq_map, List.filter_cons, hP0]
          rfl
        rw [hpos]
        rfl
    · have hcond : ¬(c = ':' ∧ rest.head? = some ' ') := by
        intro hcnd
        apply h0
        rcases hr : rest with _ | ⟨d, rs⟩
        · rw [hr] at hcnd
          exact absurd hcnd.2 (by simp)
        · rw [hr] at hcnd
          have hd : d = ' ' := by simpa using hcnd.2
          simp [hcnd.1, hd]
      have hafter : afterColonSpace (c :: rest) = afterColonSpace rest := by
        have hunfold : afterColonSpace (c :: rest) =
            if c = ':' ∧ rest.head? = some ' ' then some rest.tail
            else afterColonSpace rest := rfl
        rw [hunfold, if_neg hcond]
      have hpos : colonSpacePositions (c :: rest) =
          (colonSpacePositions rest).map Nat.succ := by
        unfold colonSpacePositions
        rw [show (c :: rest).length = rest.length + 1 from rfl,
          List.range_succ_eq_map, List.filter_cons]
        have h00 : decide (((c :: rest).drop 0).take 2 = [':', ' ']) = false := by
          simp only [List.drop_zero]
          exact decide_eq_false h0
        rw [h00]
        simp only [Bool.false_eq_true, if_false, List.filter_map]
        apply congrArg (List.map Nat.succ)
        apply List.filter_congr
        intro i _
        simp [Function.comp, List.drop_succ_cons]
      rw [hafter, ih, hpos, List.head?_map]
      cases hh : (colonSpacePositions rest).head? with
      | none => rfl
      | some i => rfl

/-- The query helper of the code equals the spec-side first-occurrence
prefix strip. -/
theorem queryOfTitle_eq_specQuery (t : Str) : queryOfTitle t = specQuery t := by
  unfold queryOfTitle specQuery
  rw [afterColonSpace_eq_positions]
  cases (colonSpacePositions t).head? with
  | none => rfl
  | some i => rfl

/-- C8: the query passed to the image search for a slide is the slide's
title with the prefix up to and including the first `": "` occurrence
removed: the code's `split(": ", 1)[-1]` equals the spec-side strip, the
image-search calls of a whole run are exactly the stripped titles of the
parsed slides in order, and `"Slide 1: Facts"` yields the query
`"Facts"`. -/
theorem c8_image_query :
    (∀ t, queryOfTitle t = specQuery t) ∧
    (∀ (search : Str → SearchResponse) (env : Nat → SlideEnv) (content : Str),
      (add_slides search env content).calls.filterMap queryOfCall =
        (parseSlides content).map (fun s => specQuery s.title)) ∧
    specQuery ("Slide 1: Facts".toList) = "Facts".toList := by
  refine ⟨queryOfTitle_eq_specQuery, ?_, by decide⟩
  intro search env content
  have hqueries := (processSlides_calls search env (parseSlides content) 0).2.2
  have hmain : (add_slides search env content).calls.filterMap queryOfCall =
      (processBlocks search env 0
        (splitBlocks (pyStrip content))).1.filterMap queryOfCall := by
    unfold add_slides
    split
    · rfl
    · simp [List.filterMap_append, queryOfCall]
  rw [hmain, processBlocks_eq]
  have hps : (splitBlocks (pyStrip content)).filterMap parseBlock =
      parseSlides content := rfl
  rw [hps, hqueries]
  simp only [queryOfTitle_eq_specQuery]

/-- A well-behaved line: nonempty, containing no line break, and neither
starting nor ending with whitespace. -/
def cleanLine (l : Str) : Bool :=
  !l.isEmpty &&
  l.all (fun c => decide (c ≠ '\n')) &&
  (match l.head? with | some c => !isPySpace c | none => false) &&
  (match l.getLast? with | some c => !isPySpace c | none => false)

/-- Unpacking of `cleanLine`. -/
theorem cleanLine_spec (l : Str) (h : cleanLine l = true) :
    l ≠ [] ∧ (∀ c ∈ l, c ≠ '\n') ∧
    (∀ c, l.head? = some c → isPySpace c = false) ∧
    (∀ c, l.getLast? = some c → isPySpace c = false) := by
  simp only [cleanLine, Bool.and_eq_true] at h
  obtain ⟨⟨⟨hne, hall⟩, hhd⟩, hlast⟩ := h
  refine ⟨?_, ?_, ?_, ?_⟩
  · intro hnil
    rw [hnil] at hne
    simp at hne
  · intro c hc
    have := List.all_eq_true.mp hall c hc
    simpa using this
  · intro c hc
    rw [hc] at hhd
    simpa using hhd
  · intro c hc
    rw [hc] at hlast
    simpa using hlast

/-- `dropWhile` is the identity when the first element fails the
predicate. -/
theorem dropWhile_head_eq_self (p : Char → Bool) (l : Str)
    (h : ∀ c, l.head? = some c → p c = false) : l.dropWhile p = l := by
  cases l with
  | nil => rfl
  | cons c cs =>
    rw [List.dropWhile_cons]
    simp [h c rfl]

/-- `str.strip()` is the identity on a string whose first and last
characters are not whitespace. -/
theorem pyStrip_eq_self (s : Str)
    (h1 : ∀ c, s.head? = some c → isPySpace c = false)
    (h2 : ∀ c, s.getLast? = some c → isPySpace c = false) : pyStrip s = s := by
  unfold pyStrip
  rw [dropWhile_head_eq_self isPySpace s h1]
  rw [dropWhile_head_eq_self isPySpace s.reverse
    (by intro c hc; apply h2; rwa [List.head?_reverse] at hc)]
  exact List.reverse_reverse s

/-- Splitting a break-free string on line breaks yields the string as its
only line. -/
theorem splitLines_no_nl (l : Str) (h : ∀ c ∈ l, c ≠ '\n') :
    splitLines l = [l] := by
  induction l with
  | nil => rfl
  | cons c cs ih =>
    have hstep : splitLines (c :: cs) =
        if c = '\n' then [] :: splitLines cs
        else consHead c (splitLines cs) := rfl
    rw [hstep, if_neg (h c (by simp)), ih (fun x hx => h x (by simp [hx]))]
    rfl

/-- Peeling a break-free first line off a line-break split. -/
theorem splitLines_append (l t : Str) (h : ∀ c ∈ l, c ≠ '\n') :
    splitLines (l ++ '\n' :: t) = l :: splitLines t := by
  induction l with
  | nil =>
    show splitLines ('\n' :: t) = [] :: splitLines t
    rfl
  | cons c cs ih =>
    show splitLines (c :: (cs ++ '\n' :: t)) = (c :: cs) :: splitLines t
    have hstep : splitLines (c :: (cs ++ '\n' :: t)) =
        if c = '\n' then [] :: splitLines (cs ++ '\n' :: t)
        else consHead c (splitLines (cs ++ '\n' :: t)) := rfl
    rw [hstep, if_neg (h c (by simp)), ih (fun x hx => h x (by simp [hx]))]
    rfl

/-- `split("\n")` inverts `"\n".join` on a nonempty list of break-free
lines. -/
theorem splitLines_joinNL (ls : List Str) (hne : ls ≠ [])
    (h : ∀ l ∈ ls, ∀ c ∈ l, c ≠ '\n') : splitLines (joinNL ls) = ls := by
  induction ls with
  | nil => exact absurd rfl hne
  | cons l ls ih =>
    cases ls with
    | nil => exact splitLines_no_nl l (h l (by simp))
    | cons l2 ls2 =>
      show splitLines (l ++ '\n' :: joinNL (l2 :: ls2)) = l :: l2 :: ls2
      rw [splitLines_append _ _ (h l (by simp))]
      rw [ih (by simp) (fun x hx => h x (by simp [hx]))]

/-- A break-free string has no double line break. -/
theorem hasNlNl_of_no_nl (l : Str) (h : ∀ c ∈ l, c ≠ '\n') :
    hasNlNl l = false := by
  induction l with
  | nil => rfl
  | cons c cs ih =>
    cases cs with
    | nil => rfl
    | cons d ds =>
      have hstep : hasNlNl (c :: d :: ds) =
          ((decide (c = '\n') && decide (d = '\n')) || hasNlNl (d :: ds)) := rfl
      rw [hstep, ih (fun x hx => h x (by simp [hx]))]
      simp [h c (by simp)]

/-- Joining a break-free string to a double-break-free string whose first
character is not a line break, with one line break, stays
double-break-free. -/
theorem hasNlNl_append (a b : Str) (ha : ∀ c ∈ a, c ≠ '\n')
    (hb1 : b.head? ≠ some '\n') (hb2 : hasNlNl b = false) :
    hasNlNl (a ++ '\n' :: b) = false := by
  induction a with
  | nil =>
    show hasNlNl ('\n' :: b) = false
    cases b with
    | nil => rfl
    | cons x xs =>
      have hx : x ≠ '\n' := by
        intro hxe
        apply hb1
        rw [hxe]
        rfl
      have hstep : hasNlNl ('\n' :: x :: xs) =
          ((decide (('\n' : Char) = '\n') && decide (x = '\n')) ||
            hasNlNl (x :: xs)) := rfl
      rw [hstep, hb2]
      simp [hx]
  | cons c a ih =>
    have hia := ih (fun x hx => ha x (by simp [hx]))
    cases a with
    | nil =>
      show hasNlNl (c :: '\n' :: b) = false
      have hstep : hasNlNl (c :: '\n' :: b) =
          ((decide (c = '\n') && decide (('\n' : Char) = '\n')) ||
            hasNlNl ('\n' :: b)) := rfl
      rw [hstep]
      have hnb : hasNlNl ('\n' :: b) = false := hia
      simp [hnb, ha c (by simp)]
    | cons d a2 =>
      show hasNlNl (c :: d :: (a2 ++ '\n' :: b)) = false
      have hstep : hasNlNl (c :: d :: (a2 ++ '\n' :: b)) =
          ((decide (c = '\n') && decide (d = '\n')) ||
            hasNlNl (d :: (a2 ++ '\n' :: b))) := rfl
      rw [hstep]
      have htl : hasNlNl ((d :: a2) ++ '\n' :: b) = false := hia
      simp only [List.cons_append] at htl
      simp [htl, ha c (by simp)]

/-- Splitting a double-break-free string on blank lines yields the string
as its only block. -/
theorem splitBlocks_no_nlnl (b : Str) (h : hasNlNl b = false) :
    splitBlocks b = [b] := by
  induction b with
  | nil => rfl
  | cons c cs ih =>
    cases cs with
    | nil => rfl
    | cons d ds =>
      have hstep : hasNlNl (c :: d :: ds) =
          ((decide (c = '\n') && decide (d = '\n')) || hasNlNl (d :: ds)) := rfl
      rw [hstep] at h
      simp only [Bool.or_eq_false_iff, Bool.and_eq_false_iff] at h
      have hcd : ¬(c = '\n' ∧ d = '\n') := by
        intro hand
        rcases h.1 with hf | hf
        · rw [hand.1] at hf
          simp at hf
        · rw [hand.2] at hf
          simp at hf
      have hsb : splitBlocks (c :: d :: ds) =
          if c = '\n' ∧ d = '\n' then [] :: splitBlocks ds
          else consHead c (splitBlocks (d :: ds)) := rfl
      rw [hsb, if_neg hcd, ih h.2]
      rfl

/-- Peeling off the first block: splitting `b ++ "\n\n" ++ t` on blank
lines yields `b` followed by the blocks of `t`, provided `b` has no double
break and does not end in a line break. -/
theorem splitBlocks_append (b t : Str) (h1 : hasNlNl b = false)
    (h2 : b.getLast? ≠ some '\n') :
    splitBlocks (b ++ '\n' :: '\n' :: t) = b :: splitBlocks t := by
  induction b with
  | nil =>
    show splitBlocks ('\n' :: '\n' :: t) = [] :: splitBlocks t
    have hsb : splitBlocks ('\n' :: '\n' :: t) =
        if ('\n' : Char) = '\n' ∧ ('\n' : Char) = '\n' then [] :: splitBlocks t
        else consHead '\n' (splitBlocks ('\n' :: t)) := rfl
    rw [hsb, if_pos ⟨rfl, rfl⟩]
  | cons c b ih =>
    cases b with
    | nil =>
      have hc : c ≠ '\n' := by
        intro hcn
        apply h2
        rw [hcn]
        rfl
      show splitBlocks (c :: '\n' :: '\n' :: t) = [c] :: splitBlocks t
      have hsb : splitBlocks (c :: '\n' :: '\n' :: t) =
          if c = '\n' ∧ ('\n' : Char) = '\n' then [] :: splitBlocks ('\n' :: t)
          else consHead c (splitBlocks ('\n' :: '\n' :: t)) := rfl
      rw [hsb, if_neg (fun hand => hc hand.1)]
      have hrec : splitBlocks ('\n' :: '\n' :: t) = [] :: splitBlocks t := by
        have hsb2 : splitBlocks ('\n' :: '\n' :: t) =
            if ('\n' : Char) = '\n' ∧ ('\n' : Char) = '\n' then
              [] :: splitBlocks t
            else consHead '\n' (splitBlocks ('\n' :: t)) := rfl
        rw [hsb2, if_pos ⟨rfl, rfl⟩]
      rw [hrec]
      rfl
    | cons d b2 =>
      have hstep : hasNlNl (c :: d :: b2) =
          ((decide (c = '\n') && decide (d = '\n')) || hasNlNl (d :: b2)) := rfl
      rw [hstep] at h1
      simp only [Bool.or_eq_false_iff, Bool.and_eq_false_iff] at h1
      have hcd : ¬(c = '\n' ∧ d = '\n') := by
        intro hand
        rcases h1.1 with hf | hf
        · rw [hand.1] at hf
          simp at hf
        · rw [hand.2] at hf
          simp at hf
      have hlast : (d :: b2).getLast? ≠ some '\n' := by
        intro hl
        apply h2
        rw [List.getLast?_cons_cons]
        exact hl
      have hia := ih h1.2 hlast
      show splitBlocks (c :: d :: (b2 ++ '\n' :: '\n' :: t)) =
        (c :: d :: b2) :: splitBlocks t
      have hsb : splitBlocks (c :: d :: (b2 ++ '\n' :: '\n' :: t)) =
          if c = '\n' ∧ d = '\n' then
            [] :: splitBlocks (b2 ++ '\n' :: '\n' :: t)
          else consHead c (splitBlocks (d :: (b2 ++ '\n' :: '\n' :: t))) := rfl
      rw [hsb, if_neg hcd]
      have hia2 : splitBlocks (d :: (b2 ++ '\n' :: '\n' :: t)) =
          (d :: b2) :: splitBlocks t := by
        simpa only [List.cons_append] using hia
      rw [hia2]
      rfl

/-- `split("\n\n")` inverts blank-line joining on a nonempty list of
blocks that are double-break-free and do not end in a line break. -/
theorem splitBlocks_joinBlocks (blocks : List Str) (hne : blocks ≠ [])
    (h : ∀ b ∈ blocks, hasNlNl b = false ∧ b.getLast? ≠ some '\n') :
    splitBlocks (joinBlocks blocks) = blocks := by
  induction blocks with
  | nil => exact absurd rfl hne
  | cons b bs ih =>
    cases bs with
    | nil => exact splitBlocks_no_nlnl b (h b (by simp)).1
    | cons b2 bs2 =>
      show splitBlocks (b ++ '\n' :: '\n' :: joinBlocks (b2 :: bs2)) =
        b :: b2 :: bs2
      rw [splitBlocks_append b _ (h b (by simp)).1 (h b (by simp)).2]
      rw [ih (by simp) (fun x hx => h x (by simp [hx]))]

/-- Joining a nonempty first line keeps the string nonempty. -/
theorem joinNL_ne_nil (l : Str) (ls : List Str) (h : l ≠ []) :
    joinNL (l :: ls) ≠ [] := by
  cases ls with
  | nil => exact h
  | cons l2 ls2 =>
    show l ++ '\n' :: joinNL (l2 :: ls2) ≠ []
    simp

/-- The first character of a line join is the first character of its first
line. -/
theorem joinNL_head? (l : Str) (ls : List Str) (h : l ≠ []) :
    (joinNL (l :: ls)).head? = l.head? := by
  cases ls with
  | nil => rfl
  | cons l2 ls2 =>
    show (l ++ '\n' :: joinNL (l2 :: ls2)).head? = l.head?
    rw [List.head?_append]
    cases l with
    | nil => exact absurd rfl h
    | cons c cs => rfl

/-- The last character of a line join of nonempty lines is the last
character of one of the lines. -/
theorem joinNL_getLast?_mem (ls : List Str) (hne : ls ≠ [])
    (hall : ∀ l ∈ ls, l ≠ []) :
    ∀ c, (joinNL ls).getLast? = some c → ∃ l ∈ ls, l.getLast? = some c := by
  induction ls with
  | nil => exact absurd rfl hne
  | cons l ls ih =>
    cases ls with
    | nil =>
      intro c hc
      exact ⟨l, by simp, hc⟩
    | cons l2 ls2 =>
      intro c hc
      rw [show joinNL (l :: l2 :: ls2) = l ++ '\n' :: joinNL (l2 :: ls2)
        from rfl] at hc
      rw [List.getLast?_append_of_ne_nil _ (by simp)] at hc
      have hjoin_ne : joinNL (l2 :: ls2) ≠ [] :=
        joinNL_ne_nil l2 ls2 (hall l2 (by simp))
      rcases hm : joinNL (l2 :: ls2) with _ | ⟨x, xs⟩
      · exact absurd hm hjoin_ne
      · rw [hm, List.getLast?_cons_cons] at hc
        have hc2 : (joinNL (l2 :: ls2)).getLast? = some c := by
          rw [hm]
          exact hc
        obtain ⟨l3, hl3, hlast⟩ :=
          ih (by simp) (fun x hx => hall x (by simp [hx])) c hc2
        exact ⟨l3, by simp [hl3], hlast⟩

/-- Joining a nonempty first block keeps the string nonempty. -/
theorem joinBlocks_ne_nil (b : Str) (bs : List Str) (h : b ≠ []) :
    joinBlocks (b :: bs) ≠ [] := by
  cases bs with
  | nil => exact h
  | cons b2 bs2 =>
    show b ++ '\n' :: '\n' :: joinBlocks (b2 :: bs2) ≠ []
    simp

/-- The first character of a block join is the first character of its
first block. -/
theorem joinBlocks_head? (b : Str) (bs : List Str) (h : b ≠ []) :
    (joinBlocks (b :: bs)).head? = b.head? := by
  cases bs with
  | nil => rfl
  | cons b2 bs2 =>
    show (b ++ '\n' :: '\n' :: joinBlocks (b2 :: bs2)).head? = b.head?
    rw [List.head?_append]
    cases b with
    | nil => exact absurd rfl h
    | cons c cs => rfl

/-- The last character of a block join of nonempty blocks is the last
character of one of the blocks. -/
theorem joinBlocks_getLast?_mem (bs : List Str) (hne : bs ≠ [])
    (hall : ∀ b ∈ bs, b ≠ []) :
    ∀ c, (joinBlocks bs).getLast? = some c → ∃ b ∈ bs, b.getLast? = some c := by
  induction bs with
  | nil => exact absurd rfl hne
  | cons b bs ih =>
    cases bs with
    | nil =>
      intro c hc
      exact ⟨b, by simp, hc⟩
    | cons b2 bs2 =>
      intro c hc
      rw [show joinBlocks (b :: b2 :: bs2) =
        b ++ '\n' :: '\n' :: joinBlocks (b2 :: bs2) from rfl] at hc
      rw [List.getLast?_append_of_ne_nil _ (by simp)] at hc
      have hjoin_ne : joinBlocks (b2 :: bs2) ≠ [] :=
        joinBlocks_ne_nil b2 bs2 (hall b2 (by simp))
      rcases hm : joinBlocks (b2 :: bs2) with _ | ⟨x, xs⟩
      · exact absurd hm hjoin_ne
      · rw [hm, List.getLast?_cons_cons, List.getLast?_cons_cons] at hc
        have hc2 : (joinBlocks (b2 :: bs2)).getLast? = some c := by
          rw [hm]
          exact hc
        obtain ⟨b3, hb3, hlast⟩ :=
          ih (by simp) (fun x hx => hall x (by simp [hx])) c hc2
        exact ⟨b3, by simp [hb3], hlast⟩

/-- A join of clean lines contains no double line break. -/
theorem joinNL_hasNlNl (ls : List Str) (h : ∀ l ∈ ls, cleanLine l = true) :
    hasNlNl (joinNL ls) = false := by
  induction ls with
  | nil => rfl
  | cons l ls ih =>
    cases ls with
    | nil => exact hasNlNl_of_no_nl l (cleanLine_spec l (h l (by simp))).2.1
    | cons l2 ls2 =>
      show hasNlNl (l ++ '\n' :: joinNL (l2 :: ls2)) = false
      apply hasNlNl_append
      · exact (cleanLine_spec l (h l (by simp))).2.1
      · have hl2 := cleanLine_spec l2 (h l2 (by simp))
        rw [joinNL_head? l2 ls2 hl2.1]
        intro hcon
        have hsp := hl2.2.2.1 '\n' hcon
        simp [isPySpace] at hsp
      · exact ih (fun x hx => h x (by simp [hx]))

/-- Parsing the join of at least two clean lines recovers the title (first
line, stripping is the identity) and the body (remaining lines joined). -/
theorem parseBlock_joinNL (ls : List Str) (hlen : 2 ≤ ls.length)
    (hclean : ∀ l ∈ ls, cleanLine l = true) :
    parseBlock (joinNL ls) = some ⟨ls.headI, joinNL ls.tail⟩ := by
  rcases ls with _ | ⟨l0, _ | ⟨l1, rest⟩⟩
  · simp at hlen
  · simp at hlen
  · have hsplit : splitLines (joinNL (l0 :: l1 :: rest)) = l0 :: l1 :: rest :=
      splitLines_joinNL _ (by simp)
        (fun l hl => (cleanLine_spec l (hclean l hl)).2.1)
    unfold parseBlock
    rw [hsplit]
    have hspec := cleanLine_spec l0 (hclean l0 (by simp))
    show some (Slide.mk (pyStrip l0) (joinNL (l1 :: rest))) = _
    rw [pyStrip_eq_self l0 hspec.2.2.1 hspec.2.2.2]
    rfl

/-- Dropping into slides: the block-join of clean blocks parses blockwise. -/
theorem filterMap_parseBlock_map (bss : List (List Str))
    (h : ∀ ls ∈ bss, 2 ≤ ls.length ∧ ∀ l ∈ ls, cleanLine l = true) :
    (bss.map joinNL).filterMap parseBlock =
      bss.map (fun ls => Slide.mk ls.headI (joinNL ls.tail)) := by
  induction bss with
  | nil => rfl
  | cons ls bss ih =>
    simp only [List.map_cons, List.filterMap_cons]
    rw [parseBlock_joinNL ls (h ls (by simp)).1 (h ls (by simp)).2]
    rw [ih (fun x hx => h x (by simp [hx]))]

/-- C1 counterexample: the raw text `"A \nB"` is one blank-line-separated
block with the 2 lines `"A "` and `"B"`, yet the parsed slide's title is
`"A"`, not the block's first line `"A "`: the code strips the title line.
So the claim's universally quantified title equation fails. -/
theorem c1_counterexample :
    splitBlocks (pyStrip ("A \nB".toList)) = [("A \nB".toList)] ∧
    splitLines ("A \nB".toList) = ["A ".toList, "B".toList] ∧
    parseSlides ("A \nB".toList) = [Slide.mk ("A".toList) ("B".toList)] ∧
    ¬ parseSlides ("A \nB".toList) = [Slide.mk ("A ".toList) ("B".toList)] := by
  decide

/-- C1 (amended): for every raw text formed by joining N blocks with blank
lines, each block having at least 2 lines all of which are nonempty,
break-free, and without surrounding whitespace, the parser produces
exactly the N slides with title the block's first line and body the
remaining lines joined by line breaks; and the concrete two-slide scenario
of the claim parses as stated. -/
theorem c1_parser_clean_blocks :
    (∀ bss : List (List Str),
      (∀ ls ∈ bss, 2 ≤ ls.length ∧ ∀ l ∈ ls, cleanLine l = true) →
      parseSlides (joinBlocks (bss.map joinNL)) =
        bss.map (fun ls => Slide.mk ls.headI (joinNL ls.tail))) ∧
    parseSlides ("Slide 1: Facts\n- A\n- B\n\nSlide 2: More\n- C\n- D".toList) =
      [Slide.mk ("Slide 1: Facts".toList) ("- A\n- B".toList),
       Slide.mk ("Slide 2: More".toList) ("- C\n- D".toList)] := by
  constructor
  · intro bss h
    cases bss with
    | nil => rfl
    | cons ls0 bss2 =>
      have hblocks : ∀ b ∈ (ls0 :: bss2).map joinNL,
          hasNlNl b = false ∧ b.getLast? ≠ some '\n' ∧ b ≠ [] ∧
          (∀ c, b.head? = some c → isPySpace c = false) ∧
          (∀ c, b.getLast? = some c → isPySpace c = false) := by
        intro b hb
        rw [List.mem_map] at hb
        obtain ⟨ls, hls, rfl⟩ := hb
        obtain ⟨hlen, hclean⟩ := h ls hls
        rcases ls with _ | ⟨l, ls2⟩
        · simp at hlen
        · have hl := cleanLine_spec l (hclean l (by simp))
          have hlastmem : ∀ c, (joinNL (l :: ls2)).getLast? = some c →
              isPySpace c = false := by
            intro c hc
            obtain ⟨l3, hl3, hlast⟩ := joinNL_getLast?_mem (l :: ls2) (by simp)
              (fun x hx => (cleanLine_spec x (hclean x hx)).1) c hc
            exact (cleanLine_spec l3 (hclean l3 hl3)).2.2.2 c hlast
          refine ⟨joinNL_hasNlNl (l :: ls2) hclean, ?_,
            joinNL_ne_nil l ls2 hl.1, ?_, hlastmem⟩
          · intro hcon
            have hsp := hlastmem '\n' hcon
            simp [isPySpace] at hsp
          · intro c hc
            rw [joinNL_head? l ls2 hl.1] at hc
            exact hl.2.2.1 c hc
      have hmap : (ls0 :: bss2).map joinNL = joinNL ls0 :: bss2.map joinNL :=
        rfl
      have hb0 := hblocks (joinNL ls0) (by simp)
      have hT_head : ∀ c,
          (joinBlocks ((ls0 :: bss2).map joinNL)).head? = some c →
          isPySpace c = false := by
        intro c hc
        rw [hmap, joinBlocks_head? _ _ hb0.2.2.1] at hc
        exact hb0.2.2.2.1 c hc
      have hT_last : ∀ c,
          (joinBlocks ((ls0 :: bss2).map joinNL)).getLast? = some c →
          isPySpace c = false := by
        intro c hc
        obtain ⟨b, hb, hlast⟩ := joinBlocks_getLast?_mem
          ((ls0 :: bss2).map joinNL) (by simp)
          (fun b hb => (hblocks b hb).2.2.1) c hc
        exact (hblocks b hb).2.2.2.2 c hlast
      unfold parseSlides
      rw [pyStrip_eq_self _ hT_head hT_last]
      rw [splitBlocks_joinBlocks _ (by simp)
        (fun b hb => ⟨(hblocks b hb).1, (hblocks b hb).2.1⟩)]
      exact filterMap_parseBlock_map _ h
  · decide

/-- C1 witness: a single clean block with the two lines `"ab"`, `"cd"`
parses into the one slide with that title and body. -/
theorem c1_witness :
    parseSlides (joinBlocks ([["ab".toList, "cd".toList]].map joinNL)) =
      [Slide.mk ("ab".toList) ("cd".toList)] :=
  c1_parser_clean_blocks.1 [["ab".toList, "cd".toList]] (by decide)

end AIP
